import Mathlib

/-!
Verification of the Hybrid Retrieval Engine of `minna-core`
(`src/minna/core/vector_db.py`, class `VectorManager`).

The embedding models:
* the admission filter and the batched, transactional write path
  (`add_documents`),
* the keyword search (`search_keyword`, SQL `LIKE` over the documents
  table),
* the hybrid vector/keyword search (`search`),
* the Matryoshka truncation + L2 normalization of `embed_text`.

The SQLite store is modelled as an explicit state (list of document rows
plus a list of vector rows); the external embedding model and the
sqlite-vec distance metric are injected functions, as §9 of the design
notes prescribes.  Storage failures are modelled by an oracle indexed by
the running count of statements executed on the connection.
-/

namespace Minna

/-! ## Python / SQLite string primitives -/

/-- The whitespace characters stripped by Python's `str.strip()`
(ASCII range, which is all the sources exercise). -/
def isPySpace (c : Char) : Bool :=
  c = ' ' || c = '\t' || c = '\n' || c = '\r' || c = '\x0b' || c = '\x0c'

/-- Python `s.strip()`, as a list of characters. -/
def pyStrip (s : String) : List Char :=
  ((s.data.dropWhile isPySpace).reverse.dropWhile isPySpace).reverse

/-- Length of the stripped content, `len(content.strip())`. -/
def stripLen (s : String) : Nat := (pyStrip s).length

/-- ASCII lower-casing, the folding SQLite's `LIKE` applies. -/
def lowerAscii (c : Char) : Char :=
  if 'A' ≤ c ∧ c ≤ 'Z' then Char.ofNat (c.toNat + 32) else c

/-- SQLite `LIKE` pattern matching (no `ESCAPE` clause): `%` matches any
sequence of characters, `_` matches exactly one character, and ordinary
characters compare ASCII-case-insensitively. -/
def likeMatch : List Char → List Char → Bool
  | [], s => s.isEmpty
  | c :: ps, s =>
    if c = '%' then (List.range (s.length + 1)).any fun k => likeMatch ps (s.drop k)
    else if c = '_' then
      match s with
      | [] => false
      | _ :: s' => likeMatch ps s'
    else
      match s with
      | [] => false
      | d :: s' => (lowerAscii c == lowerAscii d) && likeMatch ps s'

/-- SQL `LIMIT n`: a negative limit means "no limit" in SQLite. -/
def sqlLimit (n : Int) (xs : List α) : List α :=
  if n < 0 then xs else xs.take n.toNat

/-- Python `xs[:n]`: a negative bound counts from the end of the list. -/
def pySlice (n : Int) (xs : List α) : List α :=
  if 0 ≤ n then xs.take n.toNat else xs.take (xs.length - n.natAbs)

/-- Keep the first occurrence of every key, skipping keys already in
`seen` — the shape of both SQL `SELECT DISTINCT` (key = whole row) and
the Python `seen_content` dedup loop (key = content). -/
def dedupKeepFirst [DecidableEq β] (key : α → β) (seen : List β) : List α → List α
  | [] => []
  | x :: xs =>
    if key x ∈ seen then dedupKeepFirst key seen xs
    else x :: dedupKeepFirst key (key x :: seen) xs

/-! ## Data model -/

/-- An input candidate document (`Document{source, content, metadata}`).
The metadata mapping is opaque to the engine; we keep its JSON encoding. -/
structure Doc where
  source : String
  content : String
  metadata : String
deriving DecidableEq

/-- A row of the `documents` table.  `content` is nullable in storage
(legacy rows), hence `Option`. -/
structure StoredRow where
  rowid : Nat
  id : String
  source : String
  content : Option String
  metadata : String
deriving DecidableEq

/-- A row of the `vec_documents` table, keyed by the internal rowid of
its document.  The stored embedding payload has type `α` (injected). -/
structure VecRow (α : Type) where
  rowid : Nat
  embedding : α
deriving DecidableEq

/-- The committed database state: the two co-located tables. -/
structure DB (α : Type) where
  docs : List StoredRow
  vecs : List (VecRow α)
deriving DecidableEq

/-- Modelled from the spec: the schema file `core/schema.sql` is not part
of the sources; per the data model, `documents.id` is the primary key and
`vec_documents.rowid` is the per-document key, and rowids are
storage-assigned sequential identifiers (SQLite: one greater than the
largest in use). -/
def maxRowid (db : DB α) : Nat :=
  db.docs.foldr (fun r m => max r.rowid m) 0

/-- The rowid SQLite assigns to the next inserted document row. -/
def freshRowid (db : DB α) : Nat := maxRowid db + 1

/-- A storage-layer failure: an infrastructure error raised by the n-th
statement on the connection, or a primary-key constraint violation. -/
inductive DbError where
  | storage (opIdx : Nat)
  | constraint
deriving DecidableEq

instance {ε α : Type} [DecidableEq ε] [DecidableEq α] : DecidableEq (Except ε α) := fun x y =>
  match x, y with
  | .ok a, .ok b =>
    if h : a = b then isTrue (by rw [h]) else isFalse (by simp [h])
  | .error a, .error b =>
    if h : a = b then isTrue (by rw [h]) else isFalse (by simp [h])
  | .ok _, .error _ => isFalse (by simp)
  | .error _, .ok _ => isFalse (by simp)

/-- `INSERT INTO documents` — fails on a duplicate primary key `id`. -/
def insertDocRow (db : DB α) (r : StoredRow) : Except DbError (DB α) :=
  if db.docs.any (fun d => d.id = r.id) then .error .constraint
  else .ok ⟨db.docs ++ [r], db.vecs⟩

/-- `INSERT INTO vec_documents` — fails on a duplicate key `rowid`. -/
def insertVecRow (db : DB α) (v : VecRow α) : Except DbError (DB α) :=
  if db.vecs.any (fun w => w.rowid = v.rowid) then .error .constraint
  else .ok ⟨db.docs, db.vecs ++ [v]⟩

/-- `SELECT rowid FROM documents WHERE id = ?` with `fetchone()`:
the first matching row's rowid, if any. -/
def selectRowid (db : DB α) (docId : String) : Option Nat :=
  (db.docs.find? (fun d => d.id = docId)).map (·.rowid)

/-! ## Admission filter and the write path -/

/-- Reason a candidate is dropped by the quality filter. -/
inductive DropReason where
  | tooShort
  | unknownSource
deriving DecidableEq

/-- Verdict of the admission filter. -/
inductive Verdict where
  | keep
  | drop (reason : DropReason)
deriving DecidableEq

/-- The quality filter at the top of the `add_documents` loop: drop when
the stripped content is shorter than 10 characters, else drop when the
source is the literal `"Unknown"`, else keep. -/
def admission (d : Doc) : Verdict :=
  if stripLen d.content < 10 then .drop .tooShort
  else if d.source = "Unknown" then .drop .unknownSource
  else .keep

/-- The body of the `add_documents` loop, running inside the open
transaction.  `emb` is the injected embedding capability, `gen` supplies
the fresh UUIDs (`gen u` is the u-th `uuid.uuid4()` of the call), and
`oracle k` tells whether the k-th statement on the connection raises a
storage error.  Returns the uncommitted working state, the running
inserted count, and the final statement index. -/
def runBatch (emb : String → α) (gen : Nat → String) (oracle : Nat → Bool) :
    List Doc → DB α → Nat → Nat → Nat → Except DbError (DB α × Nat × Nat)
  | [], db, k, _, cnt => .ok (db, cnt, k)
  | d :: ds, db, k, u, cnt =>
    match admission d with
    | .drop _ => runBatch emb gen oracle ds db k u cnt
    | .keep =>
      let docId := gen u
      if oracle k then .error (.storage k)
      else
        match insertDocRow db ⟨freshRowid db, docId, d.source, some d.content, d.metadata⟩ with
        | .error e => .error e
        | .ok db1 =>
          if oracle (k + 1) then .error (.storage (k + 1))
          else
            match selectRowid db1 docId with
            | none => runBatch emb gen oracle ds db1 (k + 2) (u + 1) cnt
            | some rid =>
              if oracle (k + 2) then .error (.storage (k + 2))
              else
                match insertVecRow db1 ⟨rid, emb d.content⟩ with
                | .error e => .error e
                | .ok db2 => runBatch emb gen oracle ds db2 (k + 3) (u + 1) (cnt + 1)

/-- Observable outcome of one `add_documents` call: the committed state
seen by readers afterwards, the Python return value (`ok none` models
`return None`, `error e` models a re-raised exception), how many times
`conn.commit()` ran, and the count printed on success. -/
structure AddResult (α : Type) where
  db : DB α
  ret : Except DbError (Option Nat)
  commits : Nat
  printed : Option Nat
deriving DecidableEq

/-- `VectorManager.add_documents`.  An empty batch returns immediately.
Otherwise the batch runs in one transaction: any storage error rolls the
whole transaction back (committed state unchanged) and re-raises; on
success `conn.commit()` runs once, the count is printed, and the function
falls off the end, returning `None`. -/
def add_documents (emb : String → α) (gen : Nat → String) (oracle : Nat → Bool)
    (db : DB α) (documents : List Doc) : AddResult α :=
  match documents with
  | [] => ⟨db, .ok none, 0, none⟩
  | _ :: _ =>
    match runBatch emb gen oracle documents db 0 0 0 with
    | .error e => ⟨db, .error e, 0, none⟩
    | .ok (db1, cnt, k) =>
      if oracle k then ⟨db, .error (.storage k), 0, none⟩
      else ⟨db1, .ok none, 1, some cnt⟩

/-! ## Search -/

/-- A formatted vector search hit (the dicts built in `search`'s
formatting loop): source, content, metadata and a distance. -/
structure VRow where
  source : String
  content : String
  metadata : String
  distance : Rat
deriving DecidableEq

/-- A row as returned to the caller.  Keyword rows carry no distance
field (`distance = none`); vector rows carry theirs. -/
structure RRow where
  source : String
  content : String
  metadata : String
  distance : Option Rat
deriving DecidableEq

/-- The terminal strategy tag of a hybrid search. -/
inductive Strategy where
  | strong_match
  | keyword
  | weak_match
  | no_results
deriving DecidableEq

/-- The dictionary `search` returns. -/
structure SearchOut where
  results : List RRow
  search_strategy : Strategy
deriving DecidableEq

/-- A vector hit viewed as a returned row (its distance present). -/
def VRow.toRRow (r : VRow) : RRow := ⟨r.source, r.content, r.metadata, some r.distance⟩

/-- Ordering of the `matches` CTE rows (`ORDER BY distance`). -/
def pairLE (a b : Nat × Rat) : Prop := a.2 ≤ b.2

instance : DecidableRel pairLE := fun a b => inferInstanceAs (Decidable (a.2 ≤ b.2))

instance : IsTotal (Nat × Rat) pairLE := ⟨fun a b => le_total a.2 b.2⟩

instance : IsTrans (Nat × Rat) pairLE := ⟨fun _ _ _ => le_trans⟩

/-- Ordering of formatted rows by distance (`ORDER BY m.distance`). -/
def distLE (a b : VRow) : Prop := a.distance ≤ b.distance

instance : DecidableRel distLE := fun a b => inferInstanceAs (Decidable (a.distance ≤ b.distance))

instance : IsTotal VRow distLE := ⟨fun a b => le_total a.distance b.distance⟩

instance : IsTrans VRow distLE := ⟨fun _ _ _ => le_trans⟩

/-- The `matches` CTE: the vec0 KNN lookup.  Its `LIMIT` is not plain
SQL row capping — the virtual table consumes it as the KNN parameter
`k`, returning up to `k` vector rows paired with their distance to the
query vector (`dist` is the injected sqlite-vec metric), ordered by
ascending distance.  sqlite-vec rejects a negative `k`; `search`
catches that error and degrades the sub-search to an empty result set,
so a negative limit produces no match rows. -/
def vecMatches (dist : α → α → Rat) (db : DB α) (qv : α) (limit : Int) : List (Nat × Rat) :=
  if limit < 0 then []
  else
    (List.insertionSort pairLE
      (db.vecs.map (fun v => (v.rowid, dist v.embedding qv)))).take limit.toNat

/-- The read filter of the vector search's outer `SELECT`:
`content IS NOT NULL AND length(content) > 10 AND source != 'Unknown'`,
joined back to the matched document rows.  The outer query orders by
`m.distance` and applies `SELECT DISTINCT` over whole rows. -/
def fetchedRows (dist : α → α → Rat) (db : DB α) (qv : α) (limit : Int) : List VRow :=
  dedupKeepFirst (fun r => r) []
    (List.insertionSort distLE
      ((vecMatches dist db qv limit).flatMap (fun m =>
        (db.docs.filter (fun d => d.rowid = m.1)).filterMap (fun d =>
          match d.content with
          | none => none
          | some c =>
            if 10 < c.length ∧ d.source ≠ "Unknown" then
              some ⟨d.source, c, d.metadata, m.2⟩
            else none))))

/-- The `vector_results` list of `search`: the fetched rows deduplicated
by exact content (`seen_content` loop, first occurrence kept), then the
Python slice `vector_results[:limit]`. -/
def vectorResults (emb : String → α) (dist : α → α → Rat) (db : DB α)
    (query : String) (limit : Int) : List VRow :=
  pySlice limit (dedupKeepFirst (fun r => r.content) [] (fetchedRows dist db (emb query) limit))

/-- `VectorManager.search_keyword`: SQL
`SELECT source, content, metadata FROM documents WHERE content LIKE ?
AND length(content) > 10 AND source != 'Unknown' LIMIT ?` with the
pattern `%query%`; a `NULL` content never satisfies `LIKE`. -/
def search_keyword (db : DB α) (query : String) (limit : Int) : List RRow :=
  sqlLimit limit
    (db.docs.filterMap (fun d =>
      match d.content with
      | none => none
      | some c =>
        if likeMatch ('%' :: (query.data ++ ['%'])) c.data
            ∧ 10 < c.length ∧ d.source ≠ "Unknown" then
          some ⟨d.source, c, d.metadata, none⟩
        else none))

/-- The fixed design threshold `0.65` on the distance metric, written as
the rational 13/20 in lowest terms. -/
def threshold : Rat := ⟨13, 20, by decide, by decide⟩

/-- `VectorManager.search`: the hybrid strategy.  Empty vector results
give `no_results`; a top distance below 0.65 gives `strong_match`;
otherwise a non-empty keyword sub-search gives `keyword`, and the weak
vector results are the last resort. -/
def search (emb : String → α) (dist : α → α → Rat) (db : DB α)
    (query : String) (limit : Int) : SearchOut :=
  match vectorResults emb dist db query limit with
  | [] => ⟨[], .no_results⟩
  | r :: rest =>
    if r.distance < threshold then ⟨(r :: rest).map VRow.toRRow, .strong_match⟩
    else
      match search_keyword db query limit with
      | [] => ⟨(r :: rest).map VRow.toRRow, .weak_match⟩
      | k :: ks => ⟨k :: ks, .keyword⟩

/-! ## Embedding generator (`embed_text`) -/

/-- `np.linalg.norm`: the Euclidean norm of a vector, over the reals. -/
noncomputable def l2norm (v : List ℝ) : ℝ :=
  Real.sqrt ((v.map (fun x => x ^ 2)).sum)

/-- `VectorManager.embed_text`, as a function of the raw model output
(the injected embedding capability returns a 768-dimensional vector in
the reference deployment): truncate to the first 512 components
(`target_dim`), then divide by the Euclidean norm unless it is zero. -/
noncomputable def embed_text (raw : List ℝ) : List ℝ :=
  if l2norm (raw.take 512) = 0 then raw.take 512
  else (raw.take 512).map (fun x => x / l2norm (raw.take 512))

/-! ## Spec-side definitions and invariants -/

/-- Modelled from the spec's words (§4.5): "a case-insensitive substring
match of the query against `content`" — the query, lower-cased, occurs
contiguously in the lower-cased content. -/
def containsCI (content query : String) : Bool :=
  decide ((query.data.map lowerAscii) <:+: (content.data.map lowerAscii))

/-- The query contains no `LIKE` metacharacter. -/
def noWild (q : String) : Prop := '%' ∉ q.data ∧ '_' ∉ q.data

instance (q : String) : Decidable (noWild q) :=
  inferInstanceAs (Decidable (_ ∧ _))

/-- The storage invariant of the data model: document rowids are unique,
vector rowids are unique, every stored document has a vector entry under
its rowid and every vector entry has a document (no orphans).  Together
these say each stored document has exactly one vector entry keyed by its
internal row identifier. -/
def Inv (db : DB α) : Prop :=
  (db.docs.map (·.rowid)).Nodup
  ∧ (db.vecs.map (·.rowid)).Nodup
  ∧ (∀ d ∈ db.docs, ∃ v ∈ db.vecs, v.rowid = d.rowid)
  ∧ (∀ v ∈ db.vecs, ∃ d ∈ db.docs, d.rowid = v.rowid)

instance (db : DB α) : Decidable (Inv db) :=
  inferInstanceAs (Decidable (_ ∧ _ ∧ _ ∧ _))

/-! ## Concrete fixtures used by witnesses and counterexamples -/

/-- A trivial injected embedding capability over `Nat` payloads. -/
def embW : String → Nat := fun _ => 0

/-- A deterministic id supply standing in for `uuid.uuid4()`. -/
def genW : Nat → String := fun n => toString n

/-- An oracle under which no statement fails. -/
def oracleOk : Nat → Bool := fun _ => false

/-- An oracle under which every statement fails. -/
def oracleFail : Nat → Bool := fun _ => true

/-- A distance metric that reads the stored `Nat` payload. -/
def distW : Nat → Nat → Rat := fun a _ => (a : Rat)

/-- A valid candidate document. -/
def docW : Doc := ⟨"test", "This is long enough.", "m"⟩

/-- A candidate whose stripped content is shorter than 10 characters. -/
def docShort : Doc := ⟨"test", "Short", "m"⟩

/-- A candidate whose content is exactly 10 characters, with no leading
or trailing whitespace. -/
def doc10 : Doc := ⟨"test", "abcdefghij", "m"⟩

/-- The empty store. -/
def dbEmpty : DB Nat := ⟨[], []⟩

/-- A stored row that passes every read filter. -/
def rowW : StoredRow := ⟨1, "a", "test", some "Hello world of Lean", "m"⟩

/-- A second eligible row with different content. -/
def rowW2 : StoredRow := ⟨2, "b", "test2", some "Another fine content", "m"⟩

/-- A store with two eligible documents and their vector entries. -/
def dbW : DB Nat := ⟨[rowW, rowW2], [⟨1, 0⟩, ⟨2, 1⟩]⟩

/-! ## Helper lemmas: dedup, slices, limits -/

theorem threshold_eq : threshold = 65 / 100 := by
  show Rat.mk' 13 20 = _
  rw [Rat.mk'_eq_divInt, Rat.divInt_eq_div]
  norm_num

theorem dedupKeepFirst_sublist [DecidableEq β] (key : α → β) :
    ∀ (seen : List β) (l : List α), List.Sublist (dedupKeepFirst key seen l) l := by
  intro seen l
  induction l generalizing seen with
  | nil => simp [dedupKeepFirst]
  | cons x xs ih =>
    by_cases h : key x ∈ seen
    · simpa [dedupKeepFirst, h] using (ih seen).cons x
    · simpa [dedupKeepFirst, h] using (ih (key x :: seen)).cons₂ x

theorem mem_dedupKeepFirst [DecidableEq β] {key : α → β} {seen : List β}
    {l : List α} {x : α} (h : x ∈ dedupKeepFirst key seen l) : x ∈ l :=
  (dedupKeepFirst_sublist key seen l).subset h

theorem dedupKeepFirst_key_nodup [DecidableEq β] (key : α → β) :
    ∀ (seen : List β) (l : List α),
      ((dedupKeepFirst key seen l).map key).Nodup
      ∧ ∀ b ∈ (dedupKeepFirst key seen l).map key, b ∉ seen := by
  intro seen l
  induction l generalizing seen with
  | nil => simp [dedupKeepFirst]
  | cons x xs ih =>
    by_cases h : key x ∈ seen
    · simpa [dedupKeepFirst, h] using ih seen
    · obtain ⟨h1, h2⟩ := ih (key x :: seen)
      simp only [dedupKeepFirst, if_neg h, List.map_cons, List.nodup_cons]
      refine ⟨⟨fun hc => ?_, h1⟩, fun b hb => ?_⟩
      · exact (h2 _ hc) (List.mem_cons_self _ _)
      · rcases List.mem_cons.mp hb with rfl | hb
        · exact h
        · exact fun hs => (h2 _ hb) (List.mem_cons_of_mem _ hs)

theorem mem_dedupKeepFirst_find? [DecidableEq β] (key : α → β) :
    ∀ (seen : List β) (l : List α) (r : α), r ∈ dedupKeepFirst key seen l →
      key r ∉ seen ∧ l.find? (fun y => key y == key r) = some r := by
  intro seen l
  induction l generalizing seen with
  | nil => simp [dedupKeepFirst]
  | cons x xs ih =>
    intro r hr
    by_cases h : key x ∈ seen
    · rw [dedupKeepFirst, if_pos h] at hr
      obtain ⟨hns, hfind⟩ := ih seen r hr
      have hne : (key x == key r) = false := by
        simp only [beq_eq_false_iff_ne, ne_eq]
        intro he; exact hns (he ▸ h)
      refine ⟨hns, ?_⟩
      simp only [List.find?_cons, hne]
      exact hfind
    · rw [dedupKeepFirst, if_neg h] at hr
      rcases List.mem_cons.mp hr with rfl | hr
      · refine ⟨h, ?_⟩
        simp only [List.find?_cons, beq_self_eq_true]
      · obtain ⟨hns, hfind⟩ := ih (key x :: seen) r hr
        have hxr : (key x == key r) = false := by
          simp only [beq_eq_false_iff_ne, ne_eq]
          exact fun he => hns (he ▸ List.mem_cons_self _ _)
        refine ⟨fun hs => hns (List.mem_cons_of_mem _ hs), ?_⟩
        simp only [List.find?_cons, hxr]
        exact hfind

theorem pySlice_sublist (n : Int) (l : List α) : List.Sublist (pySlice n l) l := by
  unfold pySlice; split <;> exact List.take_sublist _ _

theorem mem_pySlice {n : Int} {l : List α} {x : α} (h : x ∈ pySlice n l) : x ∈ l :=
  (pySlice_sublist n l).subset h

theorem pySlice_length_le {n : Int} (hn : 0 ≤ n) (l : List α) :
    ((pySlice n l).length : Int) ≤ n := by
  unfold pySlice
  rw [if_pos hn, List.length_take]
  omega

theorem mem_sqlLimit {n : Int} {l : List α} {x : α} (h : x ∈ sqlLimit n l) : x ∈ l := by
  unfold sqlLimit at h
  split at h
  · exact h
  · exact ((List.take_sublist _ _).subset h)

theorem find?_first_rel {p : α → Bool} {R : α → α → Prop} :
    ∀ {l : List α} {r x : α}, l.Pairwise R → l.find? p = some r → x ∈ l →
      p x = true → R r x ∨ r = x := by
  intro l
  induction l with
  | nil => intro r x _ hf; simp at hf
  | cons a t ih =>
    intro r x hp hf hx hpx
    rcases hpa : p a with _ | _
    · rw [List.find?_cons_of_neg _ (by simp [hpa])] at hf
      rcases List.mem_cons.mp hx with rfl | hx
      · rw [hpx] at hpa; cases hpa
      · exact ih (List.Pairwise.sublist (List.sublist_cons_self a t) hp) hf hx hpx
    · rw [List.find?_cons_of_pos _ hpa] at hf
      obtain rfl := Option.some.injEq _ _ ▸ hf
      rcases List.mem_cons.mp hx with rfl | hx
      · right; rfl
      · left; exact (List.pairwise_cons.mp hp).1 x hx

/-! ## Helper lemmas: SQLite LIKE -/

theorem likeMatch_pct (ps : List Char) (t : List Char) :
    likeMatch ('%' :: ps) t = true ↔ ∃ k, likeMatch ps (t.drop k) = true := by
  show (if ('%' : Char) = '%' then _ else _) = true ↔ _
  rw [if_pos rfl, List.any_eq_true]
  constructor
  · rintro ⟨k, _, hk⟩; exact ⟨k, hk⟩
  · rintro ⟨k, hk⟩
    by_cases h : k ≤ t.length
    · exact ⟨k, List.mem_range.mpr (by omega), hk⟩
    · refine ⟨t.length, List.mem_range.mpr (by omega), ?_⟩
      rwa [List.drop_eq_nil_of_le (le_refl t.length),
        ← List.drop_eq_nil_of_le (le_of_lt (by omega : t.length < k))]

theorem likeMatch_lit_pct (q : List Char) (hq1 : '%' ∉ q) (hq2 : '_' ∉ q) :
    ∀ t : List Char,
      (likeMatch (q ++ ['%']) t = true ↔ q.map lowerAscii <+: t.map lowerAscii) := by
  induction q with
  | nil =>
    intro t
    simp only [List.nil_append, List.map_nil]
    constructor
    · intro _; exact List.nil_prefix
    · intro _
      rw [likeMatch_pct]
      exact ⟨t.length, by simp [likeMatch, List.drop_eq_nil_of_le (le_refl t.length)]⟩
  | cons c q ih =>
    have hc1 : c ≠ '%' := fun h => hq1 (h ▸ List.mem_cons_self _ _)
    have hc2 : c ≠ '_' := fun h => hq2 (h ▸ List.mem_cons_self _ _)
    have hq1' : '%' ∉ q := fun h => hq1 (List.mem_cons_of_mem _ h)
    have hq2' : '_' ∉ q := fun h => hq2 (List.mem_cons_of_mem _ h)
    intro t
    show (if c = '%' then _ else if c = '_' then _ else _) = true ↔ _
    rw [if_neg hc1, if_neg hc2]
    cases t with
    | nil => simp
    | cons d t' =>
      simp only [Bool.and_eq_true, beq_iff_eq, List.map_cons, List.cons_prefix_cons,
        List.append_eq]
      rw [ih hq1' hq2' t']

theorem infix_iff_exists_drop (a b : List α) : a <:+: b ↔ ∃ k, a <+: b.drop k := by
  constructor
  · rintro ⟨s, t, rfl⟩
    refine ⟨s.length, ?_⟩
    rw [List.append_assoc, List.drop_left]
    exact List.prefix_append a t
  · rintro ⟨k, hp⟩
    exact hp.isInfix.trans (List.drop_suffix k b).isInfix

theorem likeMatch_substring (q : List Char) (hq1 : '%' ∉ q) (hq2 : '_' ∉ q) (t : List Char) :
    likeMatch ('%' :: (q ++ ['%'])) t = true ↔ q.map lowerAscii <:+: t.map lowerAscii := by
  rw [likeMatch_pct, infix_iff_exists_drop]
  constructor
  · rintro ⟨k, hk⟩
    exact ⟨k, by rw [← List.map_drop]; exact (likeMatch_lit_pct q hq1 hq2 _).mp hk⟩
  · rintro ⟨k, hk⟩
    exact ⟨k, (likeMatch_lit_pct q hq1 hq2 _).mpr (by rwa [List.map_drop])⟩

/-! ## Helper lemmas: read-path provenance and filters -/

theorem search_keyword_mem {db : DB α} {q : String} {lim : Int} {r : RRow}
    (h : r ∈ search_keyword db q lim) :
    (∃ d ∈ db.docs, d.content = some r.content ∧ d.source = r.source)
    ∧ 10 < r.content.length ∧ r.source ≠ "Unknown" ∧ r.distance = none := by
  unfold search_keyword at h
  have h' := mem_sqlLimit h
  obtain ⟨d, hd, hf⟩ := List.mem_filterMap.mp h'
  rcases hc : d.content with _ | c
  · rw [hc] at hf; cases hf
  · rw [hc] at hf
    dsimp only at hf
    by_cases hcond : likeMatch ('%' :: (q.data ++ ['%'])) c.data = true
        ∧ 10 < c.length ∧ d.source ≠ "Unknown"
    · rw [if_pos hcond] at hf
      obtain rfl := Option.some.inj hf
      exact ⟨⟨d, hd, hc, rfl⟩, hcond.2.1, hcond.2.2, rfl⟩
    · rw [if_neg hcond] at hf; cases hf

theorem fetchedRows_mem {dist : α → α → Rat} {db : DB α} {qv : α} {lim : Int} {r : VRow}
    (h : r ∈ fetchedRows dist db qv lim) :
    ∃ d ∈ db.docs, d.content = some r.content ∧ d.source = r.source
      ∧ 10 < r.content.length ∧ r.source ≠ "Unknown" := by
  unfold fetchedRows at h
  have h1 := mem_dedupKeepFirst h
  have h2 := (List.perm_insertionSort distLE _).subset h1
  obtain ⟨m, _, hm⟩ := List.mem_flatMap.mp h2
  obtain ⟨d, hd, hf⟩ := List.mem_filterMap.mp hm
  have hdd := (List.mem_filter.mp hd).1
  rcases hc : d.content with _ | c
  · rw [hc] at hf; cases hf
  · rw [hc] at hf
    dsimp only at hf
    by_cases hcond : 10 < c.length ∧ d.source ≠ "Unknown"
    · rw [if_pos hcond] at hf
      obtain rfl := Option.some.inj hf
      exact ⟨d, hdd, hc, rfl, hcond.1, hcond.2⟩
    · rw [if_neg hcond] at hf; cases hf

theorem vectorResults_mem {emb : String → α} {dist : α → α → Rat} {db : DB α}
    {q : String} {lim : Int} {r : VRow} (h : r ∈ vectorResults emb dist db q lim) :
    ∃ d ∈ db.docs, d.content = some r.content ∧ d.source = r.source
      ∧ 10 < r.content.length ∧ r.source ≠ "Unknown" :=
  fetchedRows_mem (mem_dedupKeepFirst (mem_pySlice h))

theorem search_results_mem {emb : String → α} {dist : α → α → Rat} {db : DB α}
    {q : String} {lim : Int} {r : RRow} (h : r ∈ (search emb dist db q lim).results) :
    ∃ d ∈ db.docs, d.content = some r.content ∧ d.source = r.source
      ∧ 10 < r.content.length ∧ r.source ≠ "Unknown" := by
  unfold search at h
  rcases hvr : vectorResults emb dist db q lim with _ | ⟨a, rest⟩
  · rw [hvr] at h; simp at h
  · rw [hvr] at h
    dsimp only at h
    by_cases hd : a.distance < threshold
    · rw [if_pos hd] at h
      dsimp only at h
      obtain ⟨v, hv, rfl⟩ := List.mem_map.mp h
      obtain ⟨d, hdd, hc, hs, hl, hu⟩ := vectorResults_mem (hvr ▸ hv)
      exact ⟨d, hdd, hc, hs, hl, hu⟩
    · rw [if_neg hd] at h
      rcases hkw : search_keyword db q lim with _ | ⟨k, ks⟩
      · rw [hkw] at h
        dsimp only at h
        obtain ⟨v, hv, rfl⟩ := List.mem_map.mp h
        obtain ⟨d, hdd, hc, hs, hl, hu⟩ := vectorResults_mem (hvr ▸ hv)
        exact ⟨d, hdd, hc, hs, hl, hu⟩
      · rw [hkw] at h
        dsimp only at h
        obtain ⟨⟨d, hdd, hc, hs⟩, hl, hu, _⟩ := search_keyword_mem (hkw ▸ h)
        exact ⟨d, hdd, hc, hs, hl, hu⟩

theorem fetchedRows_sorted (dist : α → α → Rat) (db : DB α) (qv : α) (lim : Int) :
    (fetchedRows dist db qv lim).Pairwise distLE := by
  unfold fetchedRows
  exact List.Pairwise.sublist (dedupKeepFirst_sublist _ _ _)
    (List.sorted_insertionSort distLE _)

/-! ## Helper lemmas: write path and the one-vector-per-document invariant -/

theorem mem_rowid_le_foldr (l : List StoredRow) :
    ∀ d ∈ l, d.rowid ≤ l.foldr (fun r m => max r.rowid m) 0 := by
  induction l with
  | nil => simp
  | cons x xs ih =>
    intro d hd
    rcases List.mem_cons.mp hd with rfl | hd
    · exact le_max_left _ _
    · exact le_trans (ih d hd) (le_max_right _ _)

theorem rowid_ne_fresh {db : DB α} {d : StoredRow} (hd : d ∈ db.docs) :
    d.rowid ≠ freshRowid db := by
  have := mem_rowid_le_foldr db.docs d hd
  unfold freshRowid maxRowid
  omega

theorem vec_rowid_ne_fresh {db : DB α} (hInv : Inv db) {v : VecRow α}
    (hv : v ∈ db.vecs) : v.rowid ≠ freshRowid db := by
  obtain ⟨d, hd, hdr⟩ := hInv.2.2.2 v hv
  exact hdr ▸ rowid_ne_fresh hd

theorem find?_append_none {p : α → Bool} {l₁ : List α}
    (h : ∀ x ∈ l₁, p x = false) (l₂ : List α) :
    (l₁ ++ l₂).find? p = l₂.find? p := by
  induction l₁ with
  | nil => rfl
  | cons a t ih =>
    simp only [List.cons_append, List.find?_cons, h a (List.mem_cons_self _ _)]
    exact ih fun x hx => h x (List.mem_cons_of_mem _ hx)

theorem inv_insert_pair {db : DB α} (hInv : Inv db) {row : StoredRow} {v : VecRow α}
    (hr : row.rowid = freshRowid db) (hv : v.rowid = freshRowid db) :
    Inv ⟨db.docs ++ [row], db.vecs ++ [v]⟩ := by
  obtain ⟨h1, h2, h3, h4⟩ := hInv
  refine ⟨?_, ?_, ?_, ?_⟩
  · rw [List.map_append, List.nodup_append]
    refine ⟨h1, by simp, fun a ha hb => ?_⟩
    obtain ⟨d, hd, rfl⟩ := List.mem_map.mp ha
    simp only [List.map_cons, List.map_nil, List.mem_singleton] at hb
    exact rowid_ne_fresh hd (hb.trans hr)
  · rw [List.map_append, List.nodup_append]
    refine ⟨h2, by simp, fun a ha hb => ?_⟩
    obtain ⟨w, hw, rfl⟩ := List.mem_map.mp ha
    simp only [List.map_cons, List.map_nil, List.mem_singleton] at hb
    exact vec_rowid_ne_fresh ⟨h1, h2, h3, h4⟩ hw (hb.trans hv)
  · intro d hd
    rcases List.mem_append.mp hd with hd | hd
    · obtain ⟨w, hw, he⟩ := h3 d hd
      exact ⟨w, List.mem_append_left _ hw, he⟩
    · obtain rfl := List.mem_singleton.mp hd
      exact ⟨v, List.mem_append_right _ (List.mem_singleton.mpr rfl), hv.trans hr.symm⟩
  · intro w hw
    rcases List.mem_append.mp hw with hw | hw
    · obtain ⟨d, hd, he⟩ := h4 w hw
      exact ⟨d, List.mem_append_left _ hd, he⟩
    · obtain rfl := List.mem_singleton.mp hw
      exact ⟨row, List.mem_append_right _ (List.mem_singleton.mpr rfl), hr.trans hv.symm⟩

theorem runBatch_ok_inv (emb : String → α) (gen : Nat → String) (oracle : Nat → Bool) :
    ∀ (docs : List Doc) (db : DB α) (k u cnt : Nat) (db' : DB α) (cnt' k' : Nat),
      Inv db → runBatch emb gen oracle docs db k u cnt = .ok (db', cnt', k') → Inv db' := by
  intro docs
  induction docs with
  | nil =>
    intro db k u cnt db' cnt' k' hInv h
    simp only [runBatch, Except.ok.injEq, Prod.mk.injEq] at h
    obtain ⟨rfl, -, -⟩ := h
    exact hInv
  | cons d ds ih =>
    intro db k u cnt db' cnt' k' hInv h
    simp only [runBatch] at h
    rcases hadm : admission d with _ | r
    · rw [hadm] at h
      dsimp only at h
      by_cases h0 : oracle k
      · rw [if_pos h0] at h; simp at h
      rw [if_neg h0] at h
      unfold insertDocRow at h
      by_cases hdup : db.docs.any (fun x => x.id = gen u) = true
      · rw [if_pos hdup] at h; simp at h
      rw [if_neg hdup] at h
      dsimp only at h
      by_cases h1 : oracle (k + 1)
      · rw [if_pos h1] at h; simp at h
      rw [if_neg h1] at h
      have hsel : selectRowid ⟨db.docs ++ [⟨freshRowid db, gen u, d.source, some d.content,
          d.metadata⟩], db.vecs⟩ (gen u) = some (freshRowid db) := by
        unfold selectRowid
        have hnone : ∀ x ∈ db.docs, (decide (x.id = gen u)) = false := by
          intro x hx
          simp only [decide_eq_false_iff_not]
          intro he
          exact hdup (List.any_eq_true.mpr ⟨x, hx, by simp [he]⟩)
        rw [find?_append_none hnone]
        simp [List.find?_cons]
      rw [hsel] at h
      dsimp only at h
      by_cases h2 : oracle (k + 2)
      · rw [if_pos h2] at h; simp at h
      rw [if_neg h2] at h
      unfold insertVecRow at h
      have hvfalse : ¬ (db.vecs.any (fun w => decide (w.rowid = freshRowid db)) = true) := by
        rw [List.any_eq_true]
        rintro ⟨w, hw, hww⟩
        simp only [decide_eq_true_eq] at hww
        exact vec_rowid_ne_fresh hInv hw hww
      rw [if_neg hvfalse] at h
      dsimp only at h
      exact ih _ _ _ _ _ _ _ (inv_insert_pair hInv rfl rfl) h
    · rw [hadm] at h
      dsimp only at h
      exact ih _ _ _ _ _ _ _ hInv h

/-! ## Claim theorems -/

/-- C3: if any single insert (or the final commit) of an `add_documents`
batch fails for a storage reason, the whole transaction is rolled back —
the committed state readers see is exactly the pre-call state, nothing
from the batch is visible, no commit happened, and the failure is
re-raised (`ret` is that error).  On success of a non-empty batch the
transaction is committed exactly once, after all candidates are
processed. -/
theorem add_documents_atomic (emb : String → α) (gen : Nat → String)
    (oracle : Nat → Bool) (db : DB α) (documents : List Doc) :
    (∀ e, (add_documents emb gen oracle db documents).ret = .error e →
        (add_documents emb gen oracle db documents).db = db
        ∧ (add_documents emb gen oracle db documents).commits = 0)
    ∧ (documents ≠ [] → (add_documents emb gen oracle db documents).ret = .ok none →
        (add_documents emb gen oracle db documents).commits = 1) := by
  unfold add_documents
  cases documents with
  | nil => exact ⟨fun e he => by simp at he, fun hne => absurd rfl hne⟩
  | cons d ds =>
    dsimp only
    rcases h : runBatch emb gen oracle (d :: ds) db 0 0 0 with e | x
    · exact ⟨fun e' _ => ⟨rfl, rfl⟩, fun _ h' => by simp at h'⟩
    · obtain ⟨db1, cnt, k⟩ := x
      dsimp only
      by_cases ho : oracle k
      · rw [if_pos ho]
        exact ⟨fun e' _ => ⟨rfl, rfl⟩, fun _ h' => by simp at h'⟩
      · rw [if_neg ho]
        exact ⟨fun e' h' => by simp at h', fun _ _ => rfl⟩

/-- Witness for C3: with an oracle failing the first statement, the
committed state after `add_documents` of one valid document is exactly
the original empty store and no commit ran; with a never-failing oracle,
the same batch commits exactly once. -/
theorem add_documents_atomic_witness :
    ((add_documents embW genW oracleFail dbEmpty [docW]).db = dbEmpty
      ∧ (add_documents embW genW oracleFail dbEmpty [docW]).commits = 0)
    ∧ (add_documents embW genW oracleOk dbEmpty [docW]).commits = 1 :=
  ⟨(add_documents_atomic embW genW oracleFail dbEmpty [docW]).1
      (.storage 0) (by decide),
    (add_documents_atomic embW genW oracleOk dbEmpty [docW]).2
      (by decide) (by decide)⟩

/-- Counterexample for C4: `add_documents` never returns the inserted
count.  On a batch of one admissible document, one document is inserted
(the printed count is 1), yet the Python return value is `None`, not 1;
likewise an empty batch returns `None`, not 0. -/
theorem add_documents_return_counterexample :
    (add_documents embW genW oracleOk dbEmpty [docW]).printed = some 1
    ∧ (add_documents embW genW oracleOk dbEmpty [docW]).db.docs.length = 1
    ∧ (add_documents embW genW oracleOk dbEmpty [docW]).ret ≠ .ok (some 1)
    ∧ (add_documents embW genW oracleOk dbEmpty ([] : List Doc)).ret ≠ .ok (some 0) := by
  decide

/-- C4 (amended): `add_documents` computes the count of documents
actually inserted (it is printed on success) but returns no value:
every non-raising call returns Python `None`, including on an empty
input batch. -/
theorem add_documents_returns_none (emb : String → α) (gen : Nat → String)
    (oracle : Nat → Bool) (db : DB α) (documents : List Doc) :
    (add_documents emb gen oracle db documents).ret = .ok none
    ∨ ∃ e, (add_documents emb gen oracle db documents).ret = .error e := by
  unfold add_documents
  cases documents with
  | nil => exact .inl rfl
  | cons d ds =>
    dsimp only
    rcases h : runBatch emb gen oracle (d :: ds) db 0 0 0 with e | x
    · exact .inr ⟨e, rfl⟩
    · obtain ⟨db1, cnt, k⟩ := x
      dsimp only
      by_cases ho : oracle k
      · rw [if_pos ho]; exact .inr ⟨.storage k, rfl⟩
      · rw [if_neg ho]; exact .inl rfl

/-- C5: the admission rules are evaluated in order with first match
winning — stripped length < 10 drops as `tooShort`; otherwise source
equal to `"Unknown"` drops as `unknownSource`; otherwise the candidate
is kept — and a dropped candidate is silently skipped: processing the
batch with the dropped candidate at the front equals processing the rest,
with no error raised and no state, counter or count change. -/
theorem admission_first_match (emb : String → α) (gen : Nat → String)
    (oracle : Nat → Bool) (d : Doc) (ds : List Doc) (db : DB α) (k u cnt : Nat) :
    (stripLen d.content < 10 → admission d = .drop .tooShort)
    ∧ (¬ stripLen d.content < 10 → d.source = "Unknown" →
        admission d = .drop .unknownSource)
    ∧ (¬ stripLen d.content < 10 → d.source ≠ "Unknown" → admission d = .keep)
    ∧ (∀ r, admission d = .drop r →
        runBatch emb gen oracle (d :: ds) db k u cnt
          = runBatch emb gen oracle ds db k u cnt) := by
  refine ⟨fun h => ?_, fun h1 h2 => ?_, fun h1 h2 => ?_, fun r h => ?_⟩
  · unfold admission; rw [if_pos h]
  · unfold admission; rw [if_neg h1, if_pos h2]
  · unfold admission; rw [if_neg h1, if_neg h2]
  · simp only [runBatch, h]

/-- Witness for C5: the candidate with content `"Short"` is dropped as
too short and skipping it leaves the batch computation unchanged. -/
theorem admission_first_match_witness :
    admission docShort = .drop .tooShort
    ∧ runBatch embW genW oracleOk [docShort, docW] dbEmpty 0 0 0
        = runBatch embW genW oracleOk [docW] dbEmpty 0 0 0 :=
  ⟨(admission_first_match embW genW oracleOk docShort [docW] dbEmpty 0 0 0).1
      (by decide),
    (admission_first_match embW genW oracleOk docShort [docW] dbEmpty 0 0 0).2.2.2
      .tooShort (by decide)⟩

/-- C9: `add_documents` preserves the storage invariant — in every state
reachable through it, each stored document has exactly one vector entry
keyed by its internal rowid (both created in the same transaction), with
no orphan vector entries and no document lacking a vector entry. -/
theorem add_documents_preserves_inv (emb : String → α) (gen : Nat → String)
    (oracle : Nat → Bool) (db : DB α) (documents : List Doc) (hInv : Inv db) :
    Inv (add_documents emb gen oracle db documents).db := by
  unfold add_documents
  cases documents with
  | nil => exact hInv
  | cons d ds =>
    dsimp only
    rcases h : runBatch emb gen oracle (d :: ds) db 0 0 0 with e | x
    · exact hInv
    · obtain ⟨db1, cnt, k⟩ := x
      dsimp only
      by_cases ho : oracle k
      · rw [if_pos ho]; exact hInv
      · rw [if_neg ho]
        exact runBatch_ok_inv emb gen oracle (d :: ds) db 0 0 0 db1 cnt k hInv h

/-- Witness for C9: the empty store satisfies the invariant and so does
the store after inserting one valid document. -/
theorem add_documents_preserves_inv_witness :
    Inv dbEmpty ∧ Inv (add_documents embW genW oracleOk dbEmpty [docW]).db :=
  ⟨by decide, add_documents_preserves_inv embW genW oracleOk dbEmpty [docW] (by decide)⟩

/-- C1: for every query and positive limit, `search` returns exactly one
of four terminal outcomes, decided in this fixed order: empty
deduplicated vector results → `no_results` with empty results; else
first (closest) distance < 0.65 → `strong_match` with the vector results
as-is; else non-empty keyword sub-search → `keyword` with the keyword
results, which carry no distance field; else `weak_match` with the
original vector results. -/
theorem search_strategy_cascade (emb : String → α) (dist : α → α → Rat)
    (db : DB α) (query : String) (limit : Int) (hl : 0 < limit) :
    (vectorResults emb dist db query limit = [] →
        search emb dist db query limit = ⟨[], .no_results⟩)
    ∧ (∀ r rest, vectorResults emb dist db query limit = r :: rest →
        r.distance < 65 / 100 →
        search emb dist db query limit = ⟨(r :: rest).map VRow.toRRow, .strong_match⟩)
    ∧ (∀ r rest, vectorResults emb dist db query limit = r :: rest →
        ¬ r.distance < 65 / 100 → search_keyword db query limit ≠ [] →
        search emb dist db query limit = ⟨search_keyword db query limit, .keyword⟩)
    ∧ (∀ r rest, vectorResults emb dist db query limit = r :: rest →
        ¬ r.distance < 65 / 100 → search_keyword db query limit = [] →
        search emb dist db query limit = ⟨(r :: rest).map VRow.toRRow, .weak_match⟩)
    ∧ (∀ r ∈ search_keyword db query limit, r.distance = none) := by
  have ht : threshold = 65 / 100 := threshold_eq
  refine ⟨fun h => ?_, fun r rest h hd => ?_, fun r rest h hd hk => ?_,
    fun r rest h hd hk => ?_, fun r hr => (search_keyword_mem hr).2.2.2⟩
  · unfold search; rw [h]
  · unfold search; rw [h]
    dsimp only
    rw [if_pos (ht ▸ hd)]
  · unfold search; rw [h]
    dsimp only
    rw [if_neg (ht ▸ hd)]
    rcases hk' : search_keyword db query limit with _ | ⟨a, as⟩
    · exact absurd hk' hk
    · rfl
  · unfold search; rw [h]
    dsimp only
    rw [if_neg (ht ▸ hd), hk]

/-- Witness for C1: on the empty store with limit 1 the vector results
are empty and `search` reports `no_results` with empty results. -/
theorem search_strategy_cascade_witness :
    0 < (1 : Int)
    ∧ search embW distW dbEmpty "roadmap" 1 = ⟨[], .no_results⟩ :=
  ⟨by decide,
    (search_strategy_cascade embW distW dbEmpty "roadmap" 1 (by decide)).1 (by decide)⟩

/-- C8: for every store state (even one containing ineligible rows) and
every query, neither `search` nor `search_keyword` returns a row whose
source is `"Unknown"` or whose content has length ≤ 10, and every
returned content originates from a stored non-NULL content — both read
paths re-apply the filters. -/
theorem read_paths_filtered (emb : String → α) (dist : α → α → Rat)
    (db : DB α) (query : String) (limit : Int) :
    (∀ r ∈ search_keyword db query limit,
        r.source ≠ "Unknown" ∧ 10 < r.content.length
        ∧ ∃ d ∈ db.docs, d.content = some r.content)
    ∧ (∀ r ∈ (search emb dist db query limit).results,
        r.source ≠ "Unknown" ∧ 10 < r.content.length
        ∧ ∃ d ∈ db.docs, d.content = some r.content) := by
  constructor
  · intro r hr
    obtain ⟨⟨d, hd, hc, _⟩, hl, hu, _⟩ := search_keyword_mem hr
    exact ⟨hu, hl, d, hd, hc⟩
  · intro r hr
    obtain ⟨d, hd, hc, _, hl, hu⟩ := search_results_mem hr
    exact ⟨hu, hl, d, hd, hc⟩

/-- Witness for C8: a concrete row returned by `search_keyword` on a
populated store satisfies the filters. -/
theorem read_paths_filtered_witness :
    (⟨"test", "Hello world of Lean", "m", none⟩ : RRow).source ≠ "Unknown"
    ∧ 10 < (⟨"test", "Hello world of Lean", "m", none⟩ : RRow).content.length
    ∧ ∃ d ∈ dbW.docs,
        d.content = some (⟨"test", "Hello world of Lean", "m", none⟩ : RRow).content :=
  (read_paths_filtered embW distW dbW "hello" 5).1
    ⟨"test", "Hello world of Lean", "m", none⟩ (by decide)

/-- C10: a candidate whose content is exactly 10 characters with no
surrounding whitespace and a known source is admitted and stored by
`add_documents` (stripped length 10 passes the `< 10` filter), yet no
call to `search` or `search_keyword`, on any store and any arguments,
can ever return a row with that content, because both read paths require
content length strictly greater than 10. -/
theorem boundary_content_stored_but_unsearchable :
    admission doc10 = .keep
    ∧ (add_documents embW genW oracleOk dbEmpty [doc10]).db.docs.map (·.content)
        = [some "abcdefghij"]
    ∧ ∀ (α : Type) (emb : String → α) (dist : α → α → Rat) (db : DB α)
        (query : String) (limit : Int),
        (∀ r ∈ search_keyword db query limit, r.content ≠ "abcdefghij")
        ∧ (∀ r ∈ (search emb dist db query limit).results, r.content ≠ "abcdefghij") := by
  refine ⟨by decide, by decide, fun α emb dist db query limit => ⟨?_, ?_⟩⟩
  · intro r hr hc
    have hl := (search_keyword_mem hr).2.1
    rw [hc] at hl
    exact absurd hl (by decide)
  · intro r hr hc
    obtain ⟨-, -, -, -, hl, -⟩ := search_results_mem hr
    rw [hc] at hl
    exact absurd hl (by decide)

/-- Witness for C10: applied to a concrete populated store, the row
`search_keyword` returns indeed has different content. -/
theorem boundary_content_witness :
    (⟨"test", "Hello world of Lean", "m", none⟩ : RRow).content ≠ "abcdefghij" :=
  (boundary_content_stored_but_unsearchable.2.2 Nat embW distW dbW "hello" 5).1
    ⟨"test", "Hello world of Lean", "m", none⟩ (by decide)

/-- C7 (amended): for every query and nonnegative limit, the vector result list
built by `search` has pairwise-distinct contents; it is ordered by
ascending distance; it has at most `limit` entries, the truncation
happening after deduplication (the list is a sublist of the deduplicated
fetched rows); and each kept row is the first — and, the fetched rows
being distance-sorted, a lowest-distance — occurrence of its content
among the fetched rows. -/
theorem vector_results_shape (emb : String → α) (dist : α → α → Rat)
    (db : DB α) (query : String) (limit : Int) (hl : 0 ≤ limit) :
    ((vectorResults emb dist db query limit).map (·.content)).Nodup
    ∧ (vectorResults emb dist db query limit).Pairwise distLE
    ∧ ((vectorResults emb dist db query limit).length : Int) ≤ limit
    ∧ List.Sublist (vectorResults emb dist db query limit)
        (dedupKeepFirst (fun r => r.content) [] (fetchedRows dist db (emb query) limit))
    ∧ ∀ r ∈ vectorResults emb dist db query limit,
        (fetchedRows dist db (emb query) limit).find?
            (fun x => x.content == r.content) = some r
        ∧ ∀ x ∈ fetchedRows dist db (emb query) limit,
            x.content = r.content → r.distance ≤ x.distance := by
  refine ⟨?_, ?_, ?_, ?_, ?_⟩
  · exact List.Nodup.sublist
      (List.Sublist.map _ (pySlice_sublist limit _))
      (dedupKeepFirst_key_nodup (fun r : VRow => r.content) [] _).1
  · exact List.Pairwise.sublist
      ((pySlice_sublist limit _).trans (dedupKeepFirst_sublist _ _ _))
      (fetchedRows_sorted dist db (emb query) limit)
  · exact pySlice_length_le hl _
  · exact pySlice_sublist limit _
  · intro r hr
    obtain ⟨-, hfind⟩ :=
      mem_dedupKeepFirst_find? (fun r : VRow => r.content) [] _ r (mem_pySlice hr)
    refine ⟨hfind, fun x hx hcx => ?_⟩
    rcases find?_first_rel (fetchedRows_sorted dist db (emb query) limit) hfind hx
        (by simp [hcx]) with hle | rfl
    · exact hle
    · exact le_refl _

/-- Counterexample for C7: the claim quantifies over every limit, but at
limit -1 the vector result list cannot have "at most limit entries".
On the populated store, sqlite-vec rejects the negative KNN `k`, the
error is caught and the vector result list is empty — zero entries, and
a list length, being nonnegative, is never ≤ -1. -/
theorem vector_results_limit_counterexample :
    vectorResults embW distW dbW "roadmap" (-1) = []
    ∧ ¬ (((vectorResults embW distW dbW "roadmap" (-1)).length : Int) ≤ -1) := by
  decide

/-- Witness for C7 (amended): at limit 5 on a populated store the vector
result list has at most 5 entries. -/
theorem vector_results_shape_witness :
    ((vectorResults embW distW dbW "roadmap" 5).length : Int) ≤ 5 :=
  (vector_results_shape embW distW dbW "roadmap" 5 (by decide)).2.2.1

/-- Counterexample for C6: `LIKE` metacharacters in the query break the
substring reading.  With query `"_"` (a `LIKE` single-character
wildcard), `search_keyword` returns both stored rows even though neither
content contains `"_"` as a (case-insensitive) substring. -/
theorem search_keyword_substring_counterexample :
    search_keyword dbW "_" 5
      = [⟨"test", "Hello world of Lean", "m", none⟩,
          ⟨"test2", "Another fine content", "m", none⟩]
    ∧ containsCI "Hello world of Lean" "_" = false
    ∧ containsCI "Another fine content" "_" = false := by decide

/-- C6 (amended): for every query containing no `LIKE` metacharacter
(`%`, `_`) and every nonnegative limit, `search_keyword` returns exactly
the first `limit` stored rows (in table order) whose non-NULL content
contains the query as a case-insensitive substring and which pass the
read filters (length > 10, source not `"Unknown"`), each as
source/content/metadata with no distance field, and never more than
`limit` rows.  (A query containing `%` or `_` is instead interpreted
under `LIKE` wildcard semantics, and a negative limit means unlimited.) -/
theorem search_keyword_substring (db : DB α) (q : String) (lim : Int)
    (hq : noWild q) (hl : 0 ≤ lim) :
    search_keyword db q lim
      = (db.docs.filterMap (fun d =>
          match d.content with
          | none => none
          | some c =>
            if containsCI c q = true ∧ 10 < c.length ∧ d.source ≠ "Unknown" then
              some ⟨d.source, c, d.metadata, none⟩
            else none)).take lim.toNat
    ∧ ((search_keyword db q lim).length : Int) ≤ lim := by
  have hfun : ∀ d : StoredRow,
      (match d.content with
        | none => none
        | some c =>
          if likeMatch ('%' :: (q.data ++ ['%'])) c.data = true
              ∧ 10 < c.length ∧ d.source ≠ "Unknown" then
            some (⟨d.source, c, d.metadata, none⟩ : RRow)
          else none)
      = (match d.content with
        | none => none
        | some c =>
          if containsCI c q = true ∧ 10 < c.length ∧ d.source ≠ "Unknown" then
            some (⟨d.source, c, d.metadata, none⟩ : RRow)
          else none) := by
    intro d
    rcases d.content with _ | c
    · rfl
    · dsimp only
      apply if_congr (and_congr_left' ?_) rfl rfl
      rw [likeMatch_substring q.data hq.1 hq.2]
      simp only [containsCI, decide_eq_true_eq]
  have heq : search_keyword db q lim
      = (db.docs.filterMap (fun d =>
          match d.content with
          | none => none
          | some c =>
            if containsCI c q = true ∧ 10 < c.length ∧ d.source ≠ "Unknown" then
              some ⟨d.source, c, d.metadata, none⟩
            else none)).take lim.toNat := by
    unfold search_keyword sqlLimit
    rw [if_neg (not_lt.mpr hl)]
    exact congrArg _ (congrArg (fun f => List.filterMap f db.docs) (funext hfun))
  refine ⟨heq, ?_⟩
  rw [heq, List.length_take]
  omega

/-- Witness for C6 (amended): on the populated store with the
metacharacter-free query `"hello"` and limit 5, at most 5 rows come
back. -/
theorem search_keyword_substring_witness :
    ((search_keyword dbW "hello" 5).length : Int) ≤ 5 :=
  (search_keyword_substring dbW "hello" 5 (by decide) (by decide)).2

/-- C2: `embed_text` on a raw model embedding of dimension ≥ 512 (768 in
the reference deployment) returns exactly 512 components; when the
truncated raw embedding has nonzero Euclidean norm the result is the
first 512 components each divided by that norm and its own norm is
within 1e-5 of 1 (it equals 1 exactly over the reals); when that norm is
exactly zero the truncated vector is returned unmodified. -/
theorem embed_text_spec (raw : List ℝ) (h : 512 ≤ raw.length) :
    (embed_text raw).length = 512
    ∧ (l2norm (raw.take 512) ≠ 0 →
        embed_text raw = (raw.take 512).map (fun x => x / l2norm (raw.take 512))
        ∧ |l2norm (embed_text raw) - 1| ≤ 1 / 100000)
    ∧ (l2norm (raw.take 512) = 0 → embed_text raw = raw.take 512) := by
  refine ⟨?_, fun hnz => ⟨?_, ?_⟩, fun hz => ?_⟩
  · unfold embed_text
    split
    · rw [List.length_take]; omega
    · rw [List.length_map, List.length_take]; omega
  · unfold embed_text; rw [if_neg hnz]
  · set t := raw.take 512 with ht
    have hsum_nonneg : 0 ≤ (t.map (fun x => x ^ 2)).sum := by
      apply List.sum_nonneg
      intro x hx
      obtain ⟨y, -, rfl⟩ := List.mem_map.mp hx
      positivity
    have hsq : (l2norm t) ^ 2 = (t.map fun x => x ^ 2).sum := Real.sq_sqrt hsum_nonneg
    have hS_ne : (t.map fun x => x ^ 2).sum ≠ 0 := by
      intro h0
      exact hnz (by unfold l2norm; rw [h0, Real.sqrt_zero])
    have hmap : ((t.map (fun x => x / l2norm t)).map (fun x => x ^ 2)).sum
        = (t.map fun x => x ^ 2).sum * (((l2norm t) ^ 2)⁻¹) := by
      rw [List.map_map]
      have hc : ((fun x => x ^ 2) ∘ fun x => x / l2norm t)
          = fun x => x ^ 2 * ((l2norm t) ^ 2)⁻¹ := by
        funext x
        simp only [Function.comp_apply, div_pow]
        rw [div_eq_mul_inv]
      rw [hc, ← List.sum_map_mul_right]
    unfold embed_text
    rw [if_neg hnz]
    show |l2norm (t.map fun x => x / l2norm t) - 1| ≤ 1 / 100000
    have h1 : l2norm (t.map fun x => x / l2norm t)
        = Real.sqrt (((t.map fun x => x / l2norm t).map fun x => x ^ 2).sum) := rfl
    rw [h1, hmap, hsq, mul_inv_cancel₀ hS_ne, Real.sqrt_one]
    norm_num
  · unfold embed_text; rw [if_pos hz]

/-- Witness for C2: the all-zero raw embedding of dimension 768 gives a
512-component result (the zero-norm branch). -/
theorem embed_text_spec_witness :
    (embed_text (List.replicate 768 (0 : ℝ))).length = 512 :=
  (embed_text_spec (List.replicate 768 (0 : ℝ))
    (by rw [List.length_replicate]; norm_num)).1

end Minna
